import Mathlib

/-!
Shallow embedding of the lead/agreement record store of the
school-peaky-minds repository (src/core.py and src/routes/admin.py),
together with proofs of the behavioural properties claimed for it.

Modelling conventions:
* Python values that can be an `int` or a `str` are modelled by `PyVal`;
  `None` / an absent dictionary key is `Option.none`.
* Stored JSON files are modelled by `FileContent`: a JSON object that parses
  into a record (`obj`), valid JSON that is not an object (`nonObj`), and
  unparseable text (`corrupt`).  `load_json(path, {})` returns the default
  `{}` on a parse failure, which `parsedDoc` reproduces.
* A directory / file store is an association list `List (String × FileContent)`
  from file name to content; `writeFile` models `Path.write_text` (replace the
  existing binding, else append).
* Wall-clock instants are integers in microseconds since the epoch
  (`datetime.now()` has microsecond precision); record timestamps are epoch
  seconds, as in the repository.
* `datetime.fromtimestamp` raises for timestamps whose year falls outside
  1..9999; the guard constants `FROMTS_MIN`/`FROMTS_MAX` model that range
  (its exact edges are time-zone dependent; no claim touches them).
* Python's `sorted` is a stable sort; it is modelled by the stable insertion
  sort `stableSort`.  `sorted(..., key=k, reverse=True)` is
  `stableSort (fun a b => decide (k b ≤ k a))`.
-/

/-- A Python scalar that may sit in a JSON record field: an int or a string. -/
inductive PyVal where
  | int (n : Int)
  | str (s : String)
deriving DecidableEq

/-- Python truthiness of a `PyVal`: `0` and `""` are falsy. -/
def pyTruthy : PyVal → Bool
  | .int n => n != 0
  | .str s => s != ""

/-- Python `int(value)`: identity on ints, decimal parse on strings (`none` = raises). -/
def pyToInt : PyVal → Option Int
  | .int n => some n
  | .str s => s.toInt?

/-- Helper `safe_int(value)` from src/routes/admin.py: `int(value)` with default 0 on
any failure (also when the value is `None`). -/
def safe_int : Option PyVal → Int
  | none => 0
  | some v => (pyToInt v).getD 0

/-- A stored lead/agreement record (the JSON object), with the fields the
claims touch made explicit.  Absent keys are `none`. -/
structure Doc where
  timestamp : Option PyVal := none
  status : Option PyVal := none
  status_updated_at : Option Int := none
  name : Option String := none
  contact : Option String := none
  course : Option String := none
  page : Option String := none
deriving DecidableEq

/-- Table `STATUS_META` from src/routes/admin.py: recognized manual lead statuses
with their label and CSS class. -/
def STATUS_META : List (String × String × String) :=
  [ ("new", "Новая", "status-new"),
    ("contacted", "Связались", "status-warm"),
    ("qualified", "Квалифицирован", "status-warm"),
    ("call_scheduled", "Созвон", "status-new"),
    ("paid", "Оплачен", "status-good"),
    ("lost", "Потерян", "status-muted"),
    ("in_progress", "В работе", "status-warm"),
    ("closed", "Закрыта", "status-muted"),
    ("archived", "Архив", "status-muted") ]

/-- The nine recognized status keys. -/
def statusKeys : List String := STATUS_META.map Prod.fst

/-- The `(key, label, css-class)` triple the dashboard returns for a status
key (`STATUS_META[k]`; every key passed by the code is present). -/
def statusRet (k : String) : String × String × String :=
  match List.lookup k STATUS_META with
  | some (label, cls) => (k, label, cls)
  | none => (k, "", "")

/-- Python `str.strip()`: drop leading and trailing whitespace (list-based so that
the kernel can evaluate it). -/
def pyStrip (s : String) : String :=
  String.mk
    (((s.data.dropWhile Char.isWhitespace).reverse.dropWhile
      Char.isWhitespace).reverse)

/-- Evaluation of `(item.get("status") or "").strip()`: `None`/falsy gives `""`, a string is
stripped, and a truthy non-string raises `AttributeError` (modelled `none`). -/
def manualStatus : Option PyVal → Option String
  | none => some ""
  | some (.str s) => some (pyStrip s)
  | some (.int n) => if n = 0 then some "" else none

def MICROS_PER_DAY : Int := 86400000000

/-- Lower edge of the `datetime.fromtimestamp` representable range
(year 1, approximate: the exact edge is time-zone dependent). -/
def FROMTS_MIN : Int := -62135596800

/-- Upper edge of the `datetime.fromtimestamp` representable range (year 9999). -/
def FROMTS_MAX : Int := 253402300799

/-- The age-derived fallback status of `status_from_item`: falsy or
out-of-range timestamps give "archived", otherwise the record's age at
`now_us` (microseconds since epoch) picks new / in_progress / archived. -/
def age_derived (ts : Option PyVal) (now_us : Int) : String :=
  match ts with
  | none => "archived"
  | some v =>
    if !pyTruthy v then "archived"
    else
      let t := safe_int (some v)
      if t < FROMTS_MIN ∨ FROMTS_MAX < t then "archived"
      else
        let delta := now_us - t * 1000000
        if delta ≤ MICROS_PER_DAY then "new"
        else if delta ≤ 7 * MICROS_PER_DAY then "in_progress"
        else "archived"

/-- Function `status_from_item(item)` from src/routes/admin.py at wall-clock `now_us`:
a recognized manual status wins, otherwise the age-derived fallback.
`none` models the `AttributeError` raised on a truthy non-string status. -/
def status_from_item (item : Doc) (now_us : Int) : Option (String × String × String) :=
  match manualStatus item.status with
  | none => none
  | some manual =>
    match List.lookup manual STATUS_META with
    | some (label, cls) => some (manual, label, cls)
    | none => some (statusRet (age_derived item.timestamp now_us))

/-- The local calendar date of epoch-second `ts` under a fixed UTC offset
`tz` (seconds), as a day number: `datetime.fromtimestamp(ts).date()`. -/
def ts_date (tz ts : Int) : Int := (ts + tz).fdiv 86400

/-- Function `within_dates(timestamp, date_from, date_to)` from src/core.py.  Dates are
day numbers; a falsy timestamp, a failing `int()` conversion and an
out-of-range `fromtimestamp` all give `False`. -/
def within_dates (tz : Int) (timestamp : Option PyVal)
    (date_from date_to : Option Int) : Bool :=
  match timestamp with
  | none => false
  | some v =>
    if !pyTruthy v then false
    else
      match pyToInt v with
      | none => false
      | some ts =>
        if ts < FROMTS_MIN ∨ FROMTS_MAX < ts then false
        else
          let d := ts_date tz ts
          if (match date_from with | some f => decide (d < f) | none => false) then false
          else if (match date_to with | some t => decide (t < d) | none => false) then false
          else true

/-- Function `filter_items(items, course, date_from, date_to)` from src/core.py. -/
def filter_items (tz : Int) (items : List Doc) (course : String)
    (date_from date_to : Option Int) : List Doc :=
  let f1 := if course ≠ "" then
      items.filter (fun i => (i.course.getD "") = course)
    else items
  if date_from.isSome || date_to.isSome then
    f1.filter (fun i => within_dates tz i.timestamp date_from date_to)
  else f1

/-- The designated admin Telegram identifier from `load_whitelist`. -/
def target_admin_id : Int := 1547353132

/-- The default whitelist contents. -/
def default_ids : List Int := [980343575, 1065558838, 1547353132]

/-- The cleaning phase of `load_whitelist` (src/core.py): non-list JSON (or an
unreadable file) falls back to the defaults, items that `int()` rejects are
dropped, and an empty result falls back to the defaults. -/
def clean_ids (data : Option (List PyVal)) : List Int :=
  let raw := match data with
    | none => default_ids.map PyVal.int
    | some l => l
  let c := raw.filterMap pyToInt
  if c.isEmpty then default_ids else c

/-- The admin-placement phase of `load_whitelist`: if the admin id is absent
it is inserted second-to-last (appended when fewer than two entries); if it is
present and last (with at least two entries) it is swapped with the entry
before it. -/
def place_admin (cleaned : List Int) : List Int :=
  if target_admin_id ∈ cleaned then
    if 2 ≤ cleaned.length ∧ cleaned.getLastD 0 = target_admin_id then
      cleaned.dropLast.dropLast ++ [target_admin_id, cleaned.dropLast.getLastD 0]
    else cleaned
  else
    if 2 ≤ cleaned.length then
      cleaned.dropLast ++ [target_admin_id, cleaned.getLastD 0]
    else cleaned ++ [target_admin_id]

/-- Function `load_whitelist()` from src/core.py, as a function of the stored JSON
(`none` = the file is missing, unreadable, or not a JSON list). -/
def load_whitelist (data : Option (List PyVal)) : List Int :=
  place_admin (clean_ids data)

/-- Function `get_admin_ids()` from src/core.py over a whitelist `ids`: every entry but
the last (all entries when the list has at most one). -/
def get_admin_ids (ids : List Int) : List Int :=
  if ids.length ≤ 1 then ids else ids.dropLast

/-- The `paginate` closure from src/routes/admin.py (lines 531-538): a falsy
`per_page` disables pagination; otherwise the page index is clamped into
`[1, total_pages]` with `total_pages = max(1, ceil(len(items)/per_page))`
(`math.ceil` over Python division, modelled as Nat ceiling division). -/
def paginate (items : List α) (page : Int) (per_page : Option Nat) :
    List α × Int × Nat :=
  match per_page with
  | none => (items, 1, 1)
  | some pp =>
    if pp = 0 then (items, 1, 1)
    else
      let total : Nat := max 1 ((items.length + pp - 1) / pp)
      let p : Int := max 1 (min page (total : Int))
      let start : Nat := (p - 1).toNat * pp
      ((items.drop start).take pp, p, total)

/-- The `limit_value` computation from src/routes/admin.py (lines 524-529):
`""` (no value), `"all"` and `"0"` (case-insensitively) disable pagination;
otherwise `max(int(limit_raw), 1)`, defaulting to 20 when `int()` fails. -/
def limit_value (limit_raw : String) : Option Nat :=
  if limit_raw ≠ "" ∧ ¬ (["all", "0"].contains limit_raw.toLower) then
    some (match limit_raw.toInt? with
      | some n => (max n 1).toNat
      | none => 20)
  else none

/-- A stored file's content: a JSON object parsing to a record, valid JSON
that is not an object, or unparseable text. -/
inductive FileContent where
  | obj (d : Doc)
  | nonObj
  | corrupt
deriving DecidableEq

/-- Result of `load_json(path, {})` followed by the `isinstance(data, dict)` test:
an object is kept, a non-object is rejected (`none`), and unparseable content
becomes the default `{}` — an empty object. -/
def parsedDoc : FileContent → Option Doc
  | .obj d => some d
  | .nonObj => none
  | .corrupt => some {}

/-- The first stored content under `name`, `none` when no file has that name
(`Path.exists` + read). -/
def lookupFile (store : List (String × FileContent)) (name : String) :
    Option FileContent :=
  (store.find? (fun p => p.1 = name)).map Prod.snd

/-- Model of `Path.write_text`: replace the binding of `name` when present, else
append the new file. -/
def writeFile (store : List (String × FileContent)) (name : String)
    (c : FileContent) : List (String × FileContent) :=
  if store.any (fun p => p.1 = name) then
    store.map (fun p => if p.1 = name then (name, c) else p)
  else store ++ [(name, c)]

/-- Function `update_lead_status(file_name, status)` from src/core.py over the leads
store; `now` is the epoch-second clock read by `int(time.time())`.  Returns
the new store and the boolean result. -/
def update_lead_status (store : List (String × FileContent))
    (file_name status : String) (now : Int) :
    List (String × FileContent) × Bool :=
  if file_name = "" then (store, false)
  else
    match lookupFile store file_name with
    | none => (store, false)
    | some c =>
      match parsedDoc c with
      | none => (store, false)
      | some d =>
        let d' := if status ≠ "" then
            { d with status := some (.str status), status_updated_at := some now }
          else
            { d with status := none, status_updated_at := none }
        (writeFile store file_name (.obj d'), true)

/-- Function `update_agreement_status(file_name, status)` from src/core.py over the
agreements store (it never touches `status_updated_at`). -/
def update_agreement_status (store : List (String × FileContent))
    (file_name status : String) :
    List (String × FileContent) × Bool :=
  if file_name = "" then (store, false)
  else
    match lookupFile store file_name with
    | none => (store, false)
    | some c =>
      match parsedDoc c with
      | none => (store, false)
      | some d =>
        let d' := if status ≠ "" then { d with status := some (.str status) }
          else { d with status := none }
        (writeFile store file_name (.obj d'), true)

/-- The admin endpoint's translation of the posted status value
(src/routes/admin.py `admin_update_lead_status`): strip, and map the
pseudo-status "auto" to the empty string. -/
def admin_status_translate (s : String) : String :=
  let s' := pyStrip s
  if s' = "auto" then "" else s'

/-- The file name generated by `save_lead` (`lead_<epoch>_<hex>.json`). -/
def lead_file_name (t : Int) (hex : String) : String :=
  "lead_" ++ toString t ++ "_" ++ hex ++ ".json"

/-- The file name generated by `save_agreement`. -/
def agreement_file_name (t : Int) (hex : String) : String :=
  "agreement_" ++ toString t ++ "_" ++ hex ++ ".json"

/-- Function `save_lead(payload)` from src/core.py: write the payload under a fresh
generated name (`t` = epoch seconds, `hex` = the random suffix). -/
def save_lead (store : List (String × FileContent)) (payload : Doc)
    (t : Int) (hex : String) : List (String × FileContent) :=
  writeFile store (lead_file_name t hex) (.obj payload)

/-- Function `save_agreement(payload)` from src/core.py. -/
def save_agreement (store : List (String × FileContent)) (payload : Doc)
    (t : Int) (hex : String) : List (String × FileContent) :=
  writeFile store (agreement_file_name t hex) (.obj payload)

/-- Stable insertion: place `x` before the first `y` with `le x y`.  Folding
it from the right gives a stable sort — the model of Python's `sorted`. -/
def stableInsert (le : α → α → Bool) (x : α) : List α → List α
  | [] => [x]
  | y :: ys => if le x y then x :: y :: ys else y :: stableInsert le x ys

/-- Stable sort by the boolean relation `le` (Python's `sorted`). -/
def stableSort (le : α → α → Bool) (l : List α) : List α :=
  l.foldr (stableInsert le) []

/-- A record as returned by `load_leads`/`load_agreements`: the parsed object
plus the injected `_file` pseudo-field. -/
structure LoadedDoc where
  doc : Doc
  file : String
deriving DecidableEq

/-- The sort key `item.get("timestamp", 0)` of `load_leads`.  The model reads
an integer timestamp and defaults to 0; Python would raise on a mixed
int/str key set, which theorems exclude by hypothesis. -/
def tsKey (x : LoadedDoc) : Int :=
  match x.doc.timestamp with
  | some (.int n) => n
  | _ => 0

/-- Timestamps a real directory can sort without a `TypeError`: absent or an
integer. -/
def intTsContent : FileContent → Bool
  | .obj d => match d.timestamp with
    | some (.str _) => false
    | _ => true
  | _ => true

/-- Whether `name` matches the glob `<pre>*.json` (over the character lists, so that
proofs and the kernel can compute with it). -/
def globMatch (pre : String) (name : String) : Bool :=
  pre.data.isPrefixOf name.data && ".json".data.isSuffixOf name.data

/-- The shared shape of `load_leads` / `load_agreements` (src/core.py): list
the files matching `<pre>*.json` sorted by name, parse each with `load_json`,
keep the dicts with the file name injected, then stable-sort by timestamp
descending. -/
def load_all (pre : String) (dir : List (String × FileContent)) :
    List LoadedDoc :=
  let files := stableSort (fun a b => decide (a.1 ≤ b.1))
    (dir.filter (fun p => globMatch pre p.1))
  let items := files.filterMap
    (fun p => (parsedDoc p.2).map (fun d => LoadedDoc.mk d p.1))
  stableSort (fun a b => decide (tsKey b ≤ tsKey a)) items

/-- Function `load_leads()` from src/core.py. -/
def load_leads (dir : List (String × FileContent)) : List LoadedDoc :=
  load_all "lead_" dir

/-- Function `load_agreements()` from src/core.py. -/
def load_agreements (dir : List (String × FileContent)) : List LoadedDoc :=
  load_all "agreement_" dir

lemma append_pair_shape (l : List Int) (a b : Int) :
    ((l ++ [a, b]).dropLast).getLastD 0 = a ∧ 2 ≤ (l ++ [a, b]).length := by
  constructor
  · have h : l ++ [a, b] = (l ++ [a]) ++ [b] := by simp
    rw [h, List.dropLast_concat, List.getLastD_concat]
  · simp

/-- C1 counterexample: for stored whitelist `[5, 6]` the admin id 1547353132
is inserted second-to-last, so the returned list is `[5, 1547353132, 6]`, has
size ≥ 2, and its last element is not the admin id. -/
theorem load_whitelist_last_cex :
    target_admin_id ∈ load_whitelist (some [.int 5, .int 6]) ∧
    2 ≤ (load_whitelist (some [.int 5, .int 6])).length ∧
    (load_whitelist (some [.int 5, .int 6])).getLastD 0 ≠ target_admin_id := by
  decide

/-- C1 (amended): after `load_whitelist` the admin id 1547353132 is always
present; and whenever the cleaned stored list has size ≥ 2 and the admin id is
absent from it or is its last element, the returned list has size ≥ 2 with the
admin id in the second-to-last position. -/
theorem load_whitelist_admin_spec (data : Option (List PyVal)) :
    target_admin_id ∈ load_whitelist data ∧
    (2 ≤ (clean_ids data).length →
      (target_admin_id ∉ clean_ids data ∨
        (clean_ids data).getLastD 0 = target_admin_id) →
      2 ≤ (load_whitelist data).length ∧
      ((load_whitelist data).dropLast).getLastD 0 = target_admin_id) := by
  unfold load_whitelist place_admin
  set c := clean_ids data with hc
  by_cases hmem : target_admin_id ∈ c
  · by_cases hlast : 2 ≤ c.length ∧ c.getLastD 0 = target_admin_id
    · rw [if_pos hmem, if_pos hlast]
      obtain ⟨h1, h2⟩ := append_pair_shape c.dropLast.dropLast target_admin_id
        (c.dropLast.getLastD 0)
      exact ⟨by simp, fun _ _ => ⟨h2, h1⟩⟩
    · rw [if_pos hmem, if_neg hlast]
      refine ⟨hmem, fun hlen hcase => ?_⟩
      rcases hcase with h | h
      · exact absurd hmem h
      · exact absurd ⟨hlen, h⟩ hlast
  · by_cases hlen : 2 ≤ c.length
    · rw [if_neg hmem, if_pos hlen]
      obtain ⟨h1, h2⟩ := append_pair_shape c.dropLast target_admin_id (c.getLastD 0)
      exact ⟨by simp, fun _ _ => ⟨h2, h1⟩⟩
    · rw [if_neg hmem, if_neg hlen]
      exact ⟨by simp, fun h _ => absurd h hlen⟩

lemma join_chunks (pp : Nat) (hpp : 0 < pp) :
    ∀ (k : Nat) (l : List α), l.length ≤ k * pp →
      ((List.range k).map (fun i => (l.drop (i * pp)).take pp)).flatten = l := by
  intro k
  induction k with
  | zero =>
    intro l h
    simp only [Nat.zero_mul, Nat.le_zero] at h
    rw [List.eq_nil_of_length_eq_zero h]
    simp
  | succ k ih =>
    intro l h
    rw [List.range_succ_eq_map, List.map_cons, List.map_map, List.flatten_cons]
    have hfun : ((fun i => (l.drop (i * pp)).take pp) ∘ Nat.succ) =
        (fun i => ((l.drop pp).drop (i * pp)).take pp) := by
      funext i
      simp only [Function.comp_apply, List.drop_drop]
      congr 2
      rw [Nat.succ_eq_add_one]
      ring
    have hlen : (l.drop pp).length ≤ k * pp := by
      have hs : (k + 1) * pp = k * pp + pp := by ring
      simp only [List.length_drop]
      omega
    rw [hfun, ih (l.drop pp) hlen]
    simp

lemma total_pages_bounds (n pp : Nat) (hpp : 0 < pp) :
    n ≤ max 1 ((n + pp - 1) / pp) * pp ∧
    (1 < max 1 ((n + pp - 1) / pp) → (max 1 ((n + pp - 1) / pp) - 1) * pp < n) := by
  have key := Nat.div_add_mod (n + pp - 1) pp
  have hmod := Nat.mod_lt (n + pp - 1) hpp
  rcases Nat.eq_zero_or_pos n with h0 | h1
  · subst h0
    have hz : (0 + pp - 1) / pp = 0 := Nat.div_eq_of_lt (by omega)
    rw [hz]
    simp
  · have hq1 : 1 ≤ (n + pp - 1) / pp := by
      rw [Nat.one_le_div_iff hpp]; omega
    rw [Nat.max_eq_right hq1]
    have e2 : ((n + pp - 1) / pp - 1) * pp = pp * ((n + pp - 1) / pp) - pp := by
      rw [Nat.sub_mul, one_mul, Nat.mul_comm]
    rw [Nat.mul_comm ((n + pp - 1) / pp) pp, e2]
    generalize hr : (n + pp - 1) % pp = r at key hmod
    generalize hm : pp * ((n + pp - 1) / pp) = m at key ⊢
    clear hq1
    constructor
    · omega
    · intro h
      clear h
      omega

lemma paginate_eq (items : List α) (page : Int) (pp : Nat) (hpp : 0 < pp) :
    paginate items page (some pp) =
      ((items.drop
          ((max 1 (min page ((max 1 ((items.length + pp - 1) / pp) : Nat) : Int)) -
            1).toNat * pp)).take pp,
        max 1 (min page ((max 1 ((items.length + pp - 1) / pp) : Nat) : Int)),
        max 1 ((items.length + pp - 1) / pp)) := by
  simp only [paginate]
  rw [if_neg (by omega : ¬ pp = 0)]

/-- The pagination contract of C2 over a record list: concatenating the pages
1..total_pages reproduces the list; `total_pages = max(1, ceil(n/page_size))`
(characterized by its bounds); the effective page is the requested page
clamped into `[1, total_pages]`; the slice is the corresponding window; and a
`per_page` of `None` — as produced by a `limit` value of "", "all" or "0" —
disables pagination, returning everything as page 1 of 1. -/
def PaginateSpec (items : List α) (page : Int) (pp : Nat) : Prop :=
  ((List.range (paginate items page (some pp)).2.2).map
      (fun i : Nat => (paginate items ((i : Int) + 1) (some pp)).1)).flatten = items ∧
  (1 ≤ (paginate items page (some pp)).2.2 ∧
    items.length ≤ (paginate items page (some pp)).2.2 * pp ∧
    (1 < (paginate items page (some pp)).2.2 →
      ((paginate items page (some pp)).2.2 - 1) * pp < items.length)) ∧
  ((paginate items page (some pp)).2.1 =
      max 1 (min page (((paginate items page (some pp)).2.2 : Nat) : Int)) ∧
    1 ≤ (paginate items page (some pp)).2.1 ∧
    (paginate items page (some pp)).2.1 ≤
      (((paginate items page (some pp)).2.2 : Nat) : Int)) ∧
  ((paginate items page (some pp)).1 =
    (items.drop (((paginate items page (some pp)).2.1 - 1).toNat * pp)).take pp) ∧
  paginate items page none = (items, 1, 1) ∧
  (∀ s : String, s = "" ∨ s.toLower = "all" ∨ s.toLower = "0" →
    paginate items page (limit_value s) = (items, 1, 1))

/-- C2: for every record list and every `page_size > 0` the `paginate`
closure of src/routes/admin.py partitions the list (concatenating pages
1..total_pages gives the input back), `total_pages = max(1, ceil(n/page_size))`,
the effective page is the requested page clamped into `[1, total_pages]`,
and a null / "all" / "0" page size disables pagination (page 1 of 1). -/
theorem paginate_spec (items : List α) (page : Int) (pp : Nat) (hpp : 0 < pp) :
    PaginateSpec items page pp := by
  have hpe := paginate_eq items page pp hpp
  obtain ⟨hb1, hb2⟩ := total_pages_bounds items.length pp hpp
  have hT1 : 1 ≤ max 1 ((items.length + pp - 1) / pp) := le_max_left _ _
  unfold PaginateSpec
  rw [hpe]
  dsimp only
  refine ⟨?_, ⟨hT1, hb1, hb2⟩, ⟨rfl, le_max_left _ _, by omega⟩, rfl, rfl, ?_⟩
  · have hmap : ∀ i ∈ List.range (max 1 ((items.length + pp - 1) / pp)),
        (paginate items ((i : Int) + 1) (some pp)).1 =
          (items.drop (i * pp)).take pp := by
      intro i hi
      rw [List.mem_range] at hi
      rw [paginate_eq items _ pp hpp]
      dsimp only
      have : (max 1 (min ((i : Int) + 1)
          ((max 1 ((items.length + pp - 1) / pp) : Nat) : Int)) - 1).toNat = i := by
        omega
      rw [this]
    exact (congrArg List.flatten (List.map_congr_left hmap)).trans
      (join_chunks pp hpp _ items hb1)
  · intro s hs
    have hnone : limit_value s = none := by
      unfold limit_value
      rcases hs with h | h | h
      · rw [if_neg]
        simp [h]
      · rw [if_neg]
        simp [h]
      · rw [if_neg]
        simp [h]
    rw [hnone]
    rfl

/-- C2 witness: the pagination contract at the concrete list `[10, 20, 30]`,
page 2, page size 2. -/
theorem paginate_spec_witness : PaginateSpec ([10, 20, 30] : List Int) 2 2 :=
  paginate_spec _ _ _ (by norm_num)

lemma age_derived_int (t now_us : Int) (ht0 : t ≠ 0)
    (hmin : FROMTS_MIN ≤ t) (hmax : t ≤ FROMTS_MAX) :
    age_derived (some (.int t)) now_us =
      (if now_us - t * 1000000 ≤ MICROS_PER_DAY then "new"
       else if now_us - t * 1000000 ≤ 7 * MICROS_PER_DAY then "in_progress"
       else "archived") := by
  unfold age_derived
  have h1 : pyTruthy (.int t) = true := by
    simp [pyTruthy, ht0]
  have h2 : safe_int (some (.int t)) = t := rfl
  dsimp only
  rw [h1]
  simp only [Bool.not_true, Bool.false_eq_true, if_false, h2]
  rw [if_neg (by omega : ¬ (t < FROMTS_MIN ∨ FROMTS_MAX < t))]

lemma status_from_item_manual_none (d : Doc) (now_us : Int) (m : String)
    (hm : manualStatus d.status = some m)
    (hl : List.lookup m STATUS_META = none) :
    status_from_item d now_us = some (statusRet (age_derived d.timestamp now_us)) := by
  unfold status_from_item
  rw [hm]
  dsimp only
  rw [hl]

/-- The "Anna" lead of the spec's scenario, created at epoch-second `T`. -/
def annaLead (T : Int) : Doc :=
  { name := some "Anna", contact := some "+79990000000",
    course := some "fullstack", page := some "", timestamp := some (.int T) }

/-- The status-derivation contract of C3 for a record with integer timestamp
`t`: a recognized manual status wins verbatim (after stripping); otherwise the
status is the age-derived value with thresholds of 1 and 7 days; and the
scenario lead created at `T` is "new" at `T+1h`, "in_progress" at `T+3d` and
"archived" at `T+10d`. -/
def StatusDerivationSpec (d : Doc) (now_us t : Int) : Prop :=
  (∀ s l c, d.status = some (.str s) →
      List.lookup (pyStrip s) STATUS_META = some (l, c) →
      status_from_item d now_us = some (pyStrip s, l, c)) ∧
  (∀ m, manualStatus d.status = some m → List.lookup m STATUS_META = none →
      status_from_item d now_us =
        some (statusRet
          (if now_us - t * 1000000 ≤ MICROS_PER_DAY then "new"
           else if now_us - t * 1000000 ≤ 7 * MICROS_PER_DAY then "in_progress"
           else "archived"))) ∧
  (∀ T : Int, 1 ≤ T → T + 864000 ≤ FROMTS_MAX →
      ((status_from_item (annaLead T) ((T + 3600) * 1000000)).map
          (fun r => r.1) = some "new" ∧
        (status_from_item (annaLead T) ((T + 259200) * 1000000)).map
          (fun r => r.1) = some "in_progress" ∧
        (status_from_item (annaLead T) ((T + 864000) * 1000000)).map
          (fun r => r.1) = some "archived"))

/-- C3: derived status.  A present, recognized manual status wins; otherwise
the status is computed from the record's age at call time (≤ 1 day "new",
≤ 7 days "in_progress", older "archived"); the spec's scenario lead behaves
as claimed at `T+1h`, `T+3d` and `T+10d`. -/
theorem status_from_item_derivation (d : Doc) (now_us t : Int)
    (hts : d.timestamp = some (.int t)) (ht0 : t ≠ 0)
    (hmin : FROMTS_MIN ≤ t) (hmax : t ≤ FROMTS_MAX) :
    StatusDerivationSpec d now_us t := by
  have hanna : ∀ T now : Int, 1 ≤ T → T + 864000 ≤ FROMTS_MAX →
      status_from_item (annaLead T) now =
        some (statusRet
          (if now - T * 1000000 ≤ MICROS_PER_DAY then "new"
           else if now - T * 1000000 ≤ 7 * MICROS_PER_DAY then "in_progress"
           else "archived")) := by
    intro T now hT1 hT2
    rw [status_from_item_manual_none (annaLead T) now "" rfl (by decide)]
    show some (statusRet (age_derived (some (.int T)) now)) = _
    rw [age_derived_int T now (by omega)
      (by simp only [FROMTS_MIN]; omega)
      (by simp only [FROMTS_MAX] at hT2 ⊢; omega)]
  refine ⟨?_, ?_, ?_⟩
  · intro s l c hs hl
    unfold status_from_item
    rw [hs]
    show (match List.lookup (pyStrip s) STATUS_META with
      | some (label, cls) => some (pyStrip s, label, cls)
      | none => some (statusRet (age_derived d.timestamp now_us))) = _
    rw [hl]
  · intro m hm hl
    rw [status_from_item_manual_none d now_us m hm hl, hts,
      age_derived_int t now_us ht0 hmin hmax]
  · intro T hT1 hT2
    refine ⟨?_, ?_, ?_⟩
    · rw [hanna T _ hT1 hT2,
        if_pos (by simp only [MICROS_PER_DAY]; omega)]
      decide
    · rw [hanna T _ hT1 hT2,
        if_neg (by simp only [MICROS_PER_DAY]; omega),
        if_pos (by simp only [MICROS_PER_DAY]; omega)]
      decide
    · rw [hanna T _ hT1 hT2,
        if_neg (by simp only [MICROS_PER_DAY]; omega),
        if_neg (by simp only [MICROS_PER_DAY]; omega)]
      decide

/-- C3 witness: the status-derivation contract at the concrete lead created
at epoch second 1000000000. -/
theorem status_from_item_derivation_witness :
    StatusDerivationSpec (annaLead 1000000000) 0 1000000000 :=
  status_from_item_derivation (annaLead 1000000000) 0 1000000000 rfl
    (by decide) (by decide) (by decide)

lemma lookup_mem_keys {α β : Type} [BEq α] [LawfulBEq α] :
    ∀ (l : List (α × β)) (k : α) (v : β),
      List.lookup k l = some v → k ∈ l.map Prod.fst := by
  intro l
  induction l with
  | nil =>
    intro k v h
    exact absurd h (by simp)
  | cons p ps ih =>
    intro k v h
    rcases p with ⟨a, b⟩
    rw [List.lookup] at h
    rcases hbeq : (k == a) with _ | _
    · rw [hbeq] at h
      simp only [List.map_cons, List.mem_cons]
      exact Or.inr (ih k v h)
    · simp only [List.map_cons, List.mem_cons]
      exact Or.inl (eq_of_beq hbeq)

lemma statusRet_fst (k : String) : (statusRet k).1 = k := by
  unfold statusRet
  rcases List.lookup k STATUS_META with _ | ⟨l, c⟩ <;> rfl

lemma age_derived_cases (ts : Option PyVal) (now_us : Int) :
    age_derived ts now_us = "new" ∨ age_derived ts now_us = "in_progress" ∨
      age_derived ts now_us = "archived" := by
  unfold age_derived
  rcases ts with _ | v
  · simp
  · dsimp only
    split_ifs <;> simp

/-- A timestamp value the claim calls unusable: missing, zero, or a string
whose `int()` conversion fails or yields zero. -/
def ts_unusable : Option PyVal → Bool
  | none => true
  | some (.int n) => n == 0
  | some (.str s) => (s.toInt?.getD 0) == 0

lemma age_derived_archived (ts : Option PyVal) (now_us : Int)
    (hun : ts_unusable ts = true) (hnow : 7 * MICROS_PER_DAY < now_us) :
    age_derived ts now_us = "archived" := by
  unfold age_derived
  rcases ts with _ | (n | s)
  · rfl
  · have hn : n = 0 := by simpa [ts_unusable] using hun
    simp [pyTruthy, hn]
  · by_cases hs : s = ""
    · simp [pyTruthy, hs]
    · have hz : s.toInt?.getD 0 = 0 := by simpa [ts_unusable] using hun
      have hp : pyTruthy (.str s) = true := by simp [pyTruthy, hs]
      dsimp only
      rw [hp]
      have hsafe : safe_int (some (.str s)) = 0 := by
        simp [safe_int, pyToInt, hz]
      simp only [Bool.not_true, Bool.false_eq_true, if_false, hsafe]
      rw [if_neg (by decide : ¬ ((0 : Int) < FROMTS_MIN ∨ FROMTS_MAX < 0))]
      rw [if_neg (by simp only [MICROS_PER_DAY] at hnow ⊢; omega),
        if_neg (by simp only [MICROS_PER_DAY] at hnow ⊢; omega)]

/-- The totality contract of C9 for records whose status field is absent,
falsy, or a string: `status_from_item` returns a triple whose key is one of
the nine recognized keys; and with no recognized manual status and no usable
timestamp (at any call time later than 7 days past the epoch) the key is
"archived". -/
def StatusTotalSpec (d : Doc) (now_us : Int) : Prop :=
  (∃ r, status_from_item d now_us = some r ∧ r.1 ∈ statusKeys) ∧
  ((∀ m, manualStatus d.status = some m → List.lookup m STATUS_META = none) →
    ts_unusable d.timestamp = true → 7 * MICROS_PER_DAY < now_us →
    (status_from_item d now_us).map (fun r => r.1) = some "archived")

/-- C9 counterexample: `status_from_item` does not return on every record
dictionary — a truthy non-string manual status (here the integer 5) makes
`(item.get("status") or "").strip()` raise `AttributeError`, modelled by the
`none` result. -/
theorem status_from_item_raises_cex :
    status_from_item { status := some (.int 5) } 0 = none := rfl

/-- C9 (amended): for every record whose manual status is absent, falsy or a
string, `status_from_item` returns without raising, its key is one of the
nine `STATUS_META` keys, and a record with no usable timestamp and no
recognized manual status yields "archived". -/
theorem status_from_item_total (d : Doc) (now_us : Int)
    (hs : manualStatus d.status ≠ none) : StatusTotalSpec d now_us := by
  rcases h : manualStatus d.status with _ | m
  · exact absurd h hs
  constructor
  · unfold status_from_item
    rw [h]
    dsimp only
    rcases hl : List.lookup m STATUS_META with _ | ⟨l, c⟩
    · refine ⟨statusRet (age_derived d.timestamp now_us), rfl, ?_⟩
      rw [statusRet_fst]
      rcases age_derived_cases d.timestamp now_us with h3 | h3 | h3 <;>
        rw [h3] <;> decide
    · exact ⟨(m, l, c), rfl, lookup_mem_keys STATUS_META m (l, c) hl⟩
  · intro hm hun hnow
    rw [status_from_item_manual_none d now_us m h (hm m h),
      age_derived_archived d.timestamp now_us hun hnow]
    simp [statusRet_fst]

/-- C9 witness: the totality contract at the empty record, 2001-09-09. -/
theorem status_from_item_total_witness :
    StatusTotalSpec {} 1000000000000000 :=
  status_from_item_total {} 1000000000000000 (by decide)

/-- The date-filter contract of C4 for a nonzero, representable integer
timestamp: the record passes iff its local calendar date lies within the
given bounds (each bound inclusive, a missing bound open); any passing record
has a non-null timestamp with an integer value whose date is within bounds;
and as soon as a bound is given, `filter_items` keeps no record without a
timestamp. -/
def WithinDatesSpec (tz ts : Int) (df dt : Option Int) : Prop :=
  (within_dates tz (some (.int ts)) df dt = true ↔
      ((∀ f, df = some f → f ≤ ts_date tz ts) ∧
        (∀ t, dt = some t → ts_date tz ts ≤ t))) ∧
  (∀ tso : Option PyVal, within_dates tz tso df dt = true →
      ∃ v n, tso = some v ∧ pyToInt v = some n ∧
        (∀ f, df = some f → f ≤ ts_date tz n) ∧
        (∀ t, dt = some t → ts_date tz n ≤ t)) ∧
  (∀ (items : List Doc) (course : String), df.isSome ∨ dt.isSome →
      ∀ i ∈ filter_items tz items course df dt, i.timestamp ≠ none)

/-- C4 counterexample: a record with the present, non-null timestamp 0 whose
local date (day 0) equals both `date_from` and `date_to` is nonetheless
rejected, because `within_dates` treats the falsy timestamp 0 as missing. -/
theorem within_dates_epoch_cex :
    (some (PyVal.int 0) ≠ (none : Option PyVal)) ∧
    ts_date 0 0 = 0 ∧
    within_dates 0 (some (.int 0)) (some 0) (some 0) = false := by
  decide

lemma within_dates_none (tz : Int) (df dt : Option Int) :
    within_dates tz none df dt = false := rfl

/-- C4 (amended): date-range filtering behaves as claimed for every record
with a nonzero (and `fromtimestamp`-representable) integer timestamp: the
date must lie in `[date_from, date_to]` inclusive, equality at a bound
passes, one day outside fails, a single bound leaves the other side open,
and records without a timestamp are excluded once any bound is given. -/
theorem within_dates_spec (tz ts : Int) (df dt : Option Int)
    (ht0 : ts ≠ 0) (hmin : FROMTS_MIN ≤ ts) (hmax : ts ≤ FROMTS_MAX) :
    WithinDatesSpec tz ts df dt := by
  have hp : pyTruthy (.int ts) = true := by simp [pyTruthy, ht0]
  refine ⟨?_, ?_, ?_⟩
  · unfold within_dates
    dsimp only
    rw [hp]
    simp only [Bool.not_true, Bool.false_eq_true, if_false, pyToInt]
    rw [if_neg (by omega : ¬ (ts < FROMTS_MIN ∨ FROMTS_MAX < ts))]
    rcases df with _ | f <;> rcases dt with _ | t <;>
      · dsimp only
        split_ifs <;> simp_all <;> omega
  · intro tso h
    unfold within_dates at h
    rcases tso with _ | v
    · exact absurd h (by simp)
    dsimp only at h
    rcases hq : pyTruthy v with _ | _
    · rw [hq] at h
      simp at h
    rw [hq] at h
    simp only [Bool.not_true, Bool.false_eq_true, if_false] at h
    rcases hpi : pyToInt v with _ | n
    · rw [hpi] at h
      simp at h
    rw [hpi] at h
    dsimp only at h
    refine ⟨v, n, rfl, hpi, ?_⟩
    by_cases hr : n < FROMTS_MIN ∨ FROMTS_MAX < n
    · rw [if_pos hr] at h
      simp at h
    rw [if_neg hr] at h
    rcases df with _ | f <;> rcases dt with _ | t <;>
      · dsimp only at h
        constructor <;> intro x hx <;> simp_all <;> omega
  · intro items course hb i hi
    unfold filter_items at hi
    rw [if_pos (by rcases hb with h | h <;> simp [h])] at hi
    have := (List.mem_filter.mp hi).2
    intro hnone
    rw [hnone, within_dates_none] at this
    exact absurd this (by simp)

/-- C4 witness: the date-filter contract at timestamp 86400 (day 1, UTC),
with both bounds equal to day 1. -/
theorem within_dates_spec_witness : WithinDatesSpec 0 86400 (some 1) (some 1) :=
  within_dates_spec 0 86400 (some 1) (some 1) (by decide) (by decide) (by decide)

/-- The zero-timestamp contract of C10: a record whose timestamp is exactly
the epoch value 0 is rejected by `within_dates` for all bounds, exactly as a
record with no timestamp is, and `filter_items` keeps no such record as soon
as any date bound is given. -/
def ZeroTsSpec (tz : Int) (df dt : Option Int) : Prop :=
  within_dates tz (some (.int 0)) df dt = false ∧
  within_dates tz (some (.int 0)) df dt = within_dates tz none df dt ∧
  (∀ (items : List Doc) (course : String), df.isSome ∨ dt.isSome →
      ∀ i ∈ filter_items tz items course df dt, i.timestamp ≠ some (.int 0))

/-- C10: `within_dates` returns false for a record whose timestamp is 0 (as
for an absent or null one), for all choices of the bounds, so such a record
is excluded by `filter_items` whenever any date bound is given. -/
theorem zero_timestamp_excluded (tz : Int) (df dt : Option Int) :
    ZeroTsSpec tz df dt := by
  have hz : within_dates tz (some (.int 0)) df dt = false := by
    simp [within_dates, pyTruthy]
  refine ⟨hz, by rw [hz, within_dates_none], ?_⟩
  intro items course hb i hi
  unfold filter_items at hi
  rw [if_pos (by rcases hb with h | h <;> simp [h])] at hi
  have hmem := (List.mem_filter.mp hi).2
  intro h0
  rw [h0, hz] at hmem
  exact absurd hmem (by simp)

lemma find_replace_self (s : List (String × FileContent)) (n : String)
    (c : FileContent) (h : s.any (fun p => p.1 = n) = true) :
    (s.map (fun p => if p.1 = n then (n, c) else p)).find?
      (fun p => p.1 = n) = some (n, c) := by
  induction s with
  | nil => simp at h
  | cons p ps ih =>
    by_cases hp : p.1 = n
    · simp [hp, List.find?]
    · have h' : ps.any (fun q => q.1 = n) = true := by
        simpa [List.any_cons, hp] using h
      simpa [hp, List.find?] using ih h'

lemma lookupFile_write (s : List (String × FileContent)) (n : String)
    (c : FileContent) : lookupFile (writeFile s n c) n = some c := by
  unfold writeFile
  by_cases h : s.any (fun p => p.1 = n) = true
  · rw [if_pos h]
    unfold lookupFile
    rw [find_replace_self s n c h]
    rfl
  · rw [if_neg h]
    unfold lookupFile
    rw [List.find?_append]
    have h2 : s.find? (fun p => p.1 = n) = none := by
      rw [List.find?_eq_none]
      intro x hx
      simp only [decide_eq_true_eq]
      intro hxn
      exact h (List.any_eq_true.mpr ⟨x, hx, by simp [hxn]⟩)
    rw [h2]
    simp [List.find?]

lemma keys_write (s : List (String × FileContent)) (n : String)
    (c : FileContent) : ∀ p ∈ writeFile s n c, p.1 = n → p = (n, c) := by
  intro p hp hpn
  unfold writeFile at hp
  by_cases h : s.any (fun q => q.1 = n) = true
  · rw [if_pos h] at hp
    obtain ⟨q, hq, hmap⟩ := List.mem_map.mp hp
    by_cases hq1 : q.1 = n
    · rw [if_pos hq1] at hmap
      exact hmap.symm
    · rw [if_neg hq1] at hmap
      rw [← hmap] at hpn
      exact absurd hpn hq1
  · rw [if_neg h] at hp
    rcases List.mem_append.mp hp with hs | hone
    · exact absurd (List.any_eq_true.mpr ⟨p, hs, by simp [hpn]⟩) h
    · simpa using hone

lemma mem_writeFile (s : List (String × FileContent)) (n : String)
    (c : FileContent) : (n, c) ∈ writeFile s n c := by
  unfold writeFile
  by_cases h : s.any (fun p => p.1 = n) = true
  · rw [if_pos h]
    obtain ⟨p, hp, hpn⟩ := List.any_eq_true.mp h
    refine List.mem_map.mpr ⟨p, hp, ?_⟩
    rw [if_pos (by simpa using hpn)]
  · rw [if_neg h]
    exact List.mem_append_right _ (by simp)

lemma any_write (s : List (String × FileContent)) (n : String)
    (c : FileContent) : (writeFile s n c).any (fun p => p.1 = n) = true :=
  List.any_eq_true.mpr ⟨(n, c), mem_writeFile s n c, by simp⟩

lemma map_self_of_keys (s : List (String × FileContent)) (n : String)
    (c : FileContent) (hall : ∀ p ∈ s, p.1 = n → p = (n, c)) :
    s.map (fun p => if p.1 = n then (n, c) else p) = s := by
  have : ∀ p ∈ s, (if p.1 = n then (n, c) else p) = p := by
    intro p hp
    by_cases hpn : p.1 = n
    · rw [if_pos hpn, (hall p hp hpn)]
    · rw [if_neg hpn]
  rw [List.map_congr_left this]
  exact List.map_id s

lemma writeFile_idem (s : List (String × FileContent)) (n : String)
    (c : FileContent) : writeFile (writeFile s n c) n c = writeFile s n c := by
  have ha := any_write s n c
  have hk := keys_write s n c
  set s' := writeFile s n c with hs'
  unfold writeFile
  rw [if_pos ha]
  exact map_self_of_keys s' n c hk

lemma update_lead_status_obj (store : List (String × FileContent))
    (file status : String) (now : Int) (d : Doc) (hf : file ≠ "")
    (hl : lookupFile store file = some (.obj d)) :
    update_lead_status store file status now =
      (writeFile store file (.obj
        (if status ≠ "" then
          { d with status := some (.str status), status_updated_at := some now }
        else { d with status := none, status_updated_at := none })), true) := by
  unfold update_lead_status
  rw [if_neg hf, hl]
  rfl

lemma update_agreement_status_obj (store : List (String × FileContent))
    (file status : String) (d : Doc) (hf : file ≠ "")
    (hl : lookupFile store file = some (.obj d)) :
    update_agreement_status store file status =
      (writeFile store file (.obj
        (if status ≠ "" then { d with status := some (.str status) }
        else { d with status := none })), true) := by
  unfold update_agreement_status
  rw [if_neg hf, hl]
  rfl

/-- The update contract of C8 (amended): the update returns false exactly
when the file name is empty, the file is missing, or its content is valid
JSON that is not an object; every false case leaves the store unchanged; on
an object, a non-empty status is stored (with `status_updated_at` for leads,
untouched for agreements) and an empty status removes the keys instead. -/
def UpdateStatusSpec (store : List (String × FileContent))
    (file status : String) (now : Int) : Prop :=
  ((update_lead_status store file status now).2 = false ↔
      file = "" ∨ lookupFile store file = none ∨
        lookupFile store file = some .nonObj) ∧
  ((update_lead_status store file status now).2 = false →
      (update_lead_status store file status now).1 = store) ∧
  (∀ d, file ≠ "" → lookupFile store file = some (.obj d) →
      lookupFile (update_lead_status store file status now).1 file =
        some (.obj
          (if status ≠ "" then
            { d with status := some (.str status), status_updated_at := some now }
          else { d with status := none, status_updated_at := none }))) ∧
  ((update_agreement_status store file status).2 = false ↔
      file = "" ∨ lookupFile store file = none ∨
        lookupFile store file = some .nonObj) ∧
  ((update_agreement_status store file status).2 = false →
      (update_agreement_status store file status).1 = store) ∧
  (∀ d, file ≠ "" → lookupFile store file = some (.obj d) →
      lookupFile (update_agreement_status store file status).1 file =
        some (.obj
          (if status ≠ "" then { d with status := some (.str status) }
          else { d with status := none })))

/-- C8 counterexample: an existing lead file whose content is unparseable
JSON makes `update_lead_status` return true (and rebuild the record from the
default empty object), not false as the claim requires for content that does
not parse as a JSON object. -/
theorem update_lead_status_corrupt_cex :
    lookupFile [("lead_x.json", FileContent.corrupt)] "lead_x.json" =
      some FileContent.corrupt ∧
    (update_lead_status [("lead_x.json", FileContent.corrupt)]
      "lead_x.json" "paid" 5).2 = true := by
  decide

/-- C8 (amended): `update_lead_status` and `update_agreement_status` return
false exactly when the file name is empty, the file does not exist, or its
content is valid JSON that is not an object (unparseable content instead
falls back to the empty object and the update succeeds); every false case
leaves the store unchanged; on success a non-empty status is stored and an
empty status removes the status key. -/
theorem update_status_spec (store : List (String × FileContent))
    (file status : String) (now : Int) : UpdateStatusSpec store file status now := by
  unfold UpdateStatusSpec
  by_cases hf : file = ""
  · subst hf
    unfold update_lead_status update_agreement_status
    simp
  · rcases hl : lookupFile store file with _ | c
    · unfold update_lead_status update_agreement_status
      rw [if_neg hf, if_neg hf, hl]
      simp [hf]
    · rcases c with d | _ | _
      · rw [update_lead_status_obj store file status now d hf hl,
          update_agreement_status_obj store file status d hf hl]
        simp only [Prod.fst, Prod.snd]
        refine ⟨by simp [hf, hl], by simp, ?_, by simp [hf, hl], by simp, ?_⟩
        · intro d' _ hl'
          obtain rfl : d = d' := FileContent.obj.inj (Option.some.inj hl')
          exact lookupFile_write store file _
        · intro d' _ hl'
          obtain rfl : d = d' := FileContent.obj.inj (Option.some.inj hl')
          exact lookupFile_write store file _
      · unfold update_lead_status update_agreement_status
        rw [if_neg hf, if_neg hf, hl]
        simp [hf, hl, parsedDoc]
      · unfold update_lead_status update_agreement_status
        rw [if_neg hf, if_neg hf, hl]
        simp only [parsedDoc]
        refine ⟨by simp [hf, hl], by simp, ?_, by simp [hf, hl], by simp, ?_⟩
        · intro d' _ hl'
          exact absurd (Option.some.inj hl') (by simp)
        · intro d' _ hl'
          exact absurd (Option.some.inj hl') (by simp)

/-- C8 witness: the update contract at a one-file store holding a parsed
lead object, updating to status "paid" at time 7. -/
theorem update_status_spec_witness :
    UpdateStatusSpec [("lead_a.json", FileContent.obj {})] "lead_a.json" "paid" 7 :=
  update_status_spec [("lead_a.json", FileContent.obj {})] "lead_a.json" "paid" 7

/-- The "auto" idempotence contract of C6 for an existing lead record `d`
stored under `file`: posting status "auto" (translated to the empty status)
succeeds, stores the record with the manual status and `status_updated_at`
removed, a second application returns the store unchanged, and the derived
status of the stored record is the age-derived value. -/
def AutoStatusSpec (store : List (String × FileContent)) (file : String)
    (d : Doc) (n1 n2 now_us : Int) : Prop :=
  (update_lead_status store file (admin_status_translate "auto") n1).2 = true ∧
  lookupFile (update_lead_status store file (admin_status_translate "auto") n1).1
      file =
    some (.obj { d with status := none, status_updated_at := none }) ∧
  update_lead_status
      (update_lead_status store file (admin_status_translate "auto") n1).1
      file (admin_status_translate "auto") n2 =
    ((update_lead_status store file (admin_status_translate "auto") n1).1, true) ∧
  (status_from_item { d with status := none, status_updated_at := none }
      now_us).map (fun r => r.1) = some (age_derived d.timestamp now_us)

/-- C6: the "auto" pseudo-status is idempotent.  The admin endpoint
translates "auto" to the empty status; applying `update_lead_status` with it
removes any stored manual status and `status_updated_at`, applying it a
second time leaves the stored record unchanged, and the derived status of
the result is the age-derived value both times. -/
theorem auto_status_idempotent (store : List (String × FileContent))
    (file : String) (d : Doc) (n1 n2 now_us : Int) (hf : file ≠ "")
    (hl : lookupFile store file = some (.obj d)) :
    AutoStatusSpec store file d n1 n2 now_us := by
  have htr : admin_status_translate "auto" = "" := by decide
  unfold AutoStatusSpec
  rw [htr]
  have h1 := update_lead_status_obj store file "" n1 d hf hl
  rw [if_neg (by simp)] at h1
  have hlook : lookupFile (update_lead_status store file "" n1).1 file =
      some (.obj { d with status := none, status_updated_at := none }) := by
    rw [h1]
    exact lookupFile_write store file _
  have h2 := update_lead_status_obj (update_lead_status store file "" n1).1
    file "" n2 { d with status := none, status_updated_at := none } hf hlook
  rw [if_neg (by simp)] at h2
  refine ⟨by rw [h1], hlook, ?_, ?_⟩
  · rw [h2, h1]
    exact Prod.ext (writeFile_idem store file _) rfl
  · rw [status_from_item_manual_none
      { d with status := none, status_updated_at := none } now_us "" rfl
      (by decide)]
    simp [statusRet_fst]

/-- C6 witness: the "auto" idempotence contract at a one-file store holding
a lead with timestamp 100 and manual status "paid". -/
theorem auto_status_idempotent_witness :
    AutoStatusSpec
      [("lead_a.json", FileContent.obj
        { timestamp := some (.int 100), status := some (.str "paid"),
          status_updated_at := some 50 })]
      "lead_a.json"
      { timestamp := some (.int 100), status := some (.str "paid"),
        status_updated_at := some 50 } 1 2 3 :=
  auto_status_idempotent _ _ _ 1 2 3 (by decide) (by decide)

lemma stableInsert_perm (le : α → α → Bool) (x : α) :
    ∀ l : List α, (stableInsert le x l).Perm (x :: l) := by
  intro l
  induction l with
  | nil => exact List.Perm.refl _
  | cons y ys ih =>
    rw [stableInsert]
    by_cases h : le x y = true
    · rw [if_pos h]
    · rw [if_neg h]
      exact (ih.cons y).trans (List.Perm.swap x y ys)

lemma stableSort_perm (le : α → α → Bool) :
    ∀ l : List α, (stableSort le l).Perm l := by
  intro l
  induction l with
  | nil => exact List.Perm.refl _
  | cons x xs ih =>
    show (stableInsert le x (stableSort le xs)).Perm (x :: xs)
    exact (stableInsert_perm le x (stableSort le xs)).trans (ih.cons x)

lemma glob_generated (pre rest : String) :
    globMatch pre (pre ++ rest ++ ".json") = true := by
  unfold globMatch
  rw [Bool.and_eq_true]
  constructor
  · rw [List.isPrefixOf_iff_prefix, String.data_append, String.data_append]
    rw [List.append_assoc]
    exact List.prefix_append _ _
  · rw [List.isSuffixOf_iff_suffix, String.data_append]
    exact List.suffix_append _ _

lemma mem_load_all (pre : String) (dir : List (String × FileContent))
    (name : String) (c : FileContent) (d : Doc)
    (hmem : (name, c) ∈ dir) (hglob : globMatch pre name = true)
    (hparse : parsedDoc c = some d) :
    LoadedDoc.mk d name ∈ load_all pre dir := by
  unfold load_all
  rw [(stableSort_perm _ _).mem_iff]
  refine List.mem_filterMap.mpr ⟨(name, c), ?_, ?_⟩
  · rw [(stableSort_perm _ _).mem_iff]
    exact List.mem_filter.mpr ⟨hmem, hglob⟩
  · rw [hparse]
    rfl

/-- The round-trip contract of C7: the freshly saved payload, extended with
its generated filename as the injected pseudo-field, is among the records
the immediately following load returns — for leads and for agreements. -/
def RoundTripSpec (dir : List (String × FileContent)) (payload : Doc)
    (t : Int) (hex : String) : Prop :=
  LoadedDoc.mk payload (lead_file_name t hex) ∈
    load_leads (save_lead dir payload t hex) ∧
  LoadedDoc.mk payload (agreement_file_name t hex) ∈
    load_agreements (save_agreement dir payload t hex)

/-- C7: saving a payload and immediately loading all records of that kind
yields a record equal to the written payload plus the injected filename
pseudo-field, for every starting directory, payload and generated name. -/
theorem save_load_roundtrip (dir : List (String × FileContent))
    (payload : Doc) (t : Int) (hex : String) :
    RoundTripSpec dir payload t hex := by
  constructor
  · exact mem_load_all "lead_" _ _ (.obj payload) payload
      (mem_writeFile dir (lead_file_name t hex) (.obj payload))
      (by
        have : lead_file_name t hex = "lead_" ++ (toString t ++ "_" ++ hex) ++ ".json" := by
          unfold lead_file_name
          simp [String.append_assoc]
        rw [this]
        exact glob_generated "lead_" (toString t ++ "_" ++ hex))
      rfl
  · exact mem_load_all "agreement_" _ _ (.obj payload) payload
      (mem_writeFile dir (agreement_file_name t hex) (.obj payload))
      (by
        have : agreement_file_name t hex =
            "agreement_" ++ (toString t ++ "_" ++ hex) ++ ".json" := by
          unfold agreement_file_name
          simp [String.append_assoc]
        rw [this]
        exact glob_generated "agreement_" (toString t ++ "_" ++ hex))
      rfl

lemma stableInsert_pairwise (le : α → α → Bool)
    (htrans : ∀ a b c, le a b = true → le b c = true → le a c = true)
    (htot : ∀ a b, le a b = true ∨ le b a = true)
    (x : α) (l : List α) (hl : l.Pairwise (fun a b => le a b = true)) :
    (stableInsert le x l).Pairwise (fun a b => le a b = true) := by
  induction l with
  | nil => simp [stableInsert]
  | cons y ys ih =>
    rw [stableInsert]
    obtain ⟨hy, hys⟩ := List.pairwise_cons.mp hl
    by_cases hxy : le x y = true
    · rw [if_pos hxy]
      refine List.pairwise_cons.mpr ⟨?_, hl⟩
      intro z hz
      rcases List.mem_cons.mp hz with rfl | hz'
      · exact hxy
      · exact htrans x y z hxy (hy z hz')
    · rw [if_neg hxy]
      refine List.pairwise_cons.mpr ⟨?_, ih hys⟩
      intro z hz
      have hz' := (stableInsert_perm le x ys).mem_iff.mp hz
      rcases List.mem_cons.mp hz' with rfl | hz''
      · exact (htot z y).resolve_left hxy
      · exact hy z hz''

lemma stableSort_pairwise (le : α → α → Bool)
    (htrans : ∀ a b c, le a b = true → le b c = true → le a c = true)
    (htot : ∀ a b, le a b = true ∨ le b a = true) :
    ∀ l : List α, (stableSort le l).Pairwise (fun a b => le a b = true) := by
  intro l
  induction l with
  | nil => simp [stableSort]
  | cons x xs ih => exact stableInsert_pairwise le htrans htot x _ ih

lemma stableInsert_stable (key : α → Int) (name : α → String) (x : α)
    (l : List α)
    (hl : l.Pairwise
      (fun a b => key b ≤ key a ∧ (key a = key b → name a ≤ name b)))
    (hx : ∀ y ∈ l, key x = key y → name x ≤ name y) :
    (stableInsert (fun a b => decide (key b ≤ key a)) x l).Pairwise
      (fun a b => key b ≤ key a ∧ (key a = key b → name a ≤ name b)) := by
  induction l with
  | nil => simp [stableInsert]
  | cons y ys ih =>
    rw [stableInsert]
    obtain ⟨hy, hys⟩ := List.pairwise_cons.mp hl
    by_cases hxy : key y ≤ key x
    · rw [if_pos (by simpa using hxy)]
      refine List.pairwise_cons.mpr ⟨?_, hl⟩
      intro z hz
      rcases List.mem_cons.mp hz with rfl | hz'
      · exact ⟨hxy, fun he => hx z (List.mem_cons_self _ _) he⟩
      · obtain ⟨h1, _⟩ := hy z hz'
        exact ⟨le_trans h1 hxy, fun he => hx z (List.mem_cons_of_mem y hz') he⟩
    · rw [if_neg (by simpa using hxy)]
      push_neg at hxy
      refine List.pairwise_cons.mpr
        ⟨?_, ih hys (fun z hz => hx z (List.mem_cons_of_mem y hz))⟩
      intro z hz
      have hz' := (stableInsert_perm _ x ys).mem_iff.mp hz
      rcases List.mem_cons.mp hz' with rfl | hz''
      · exact ⟨le_of_lt hxy,
          fun he => absurd hxy (by rw [he]; exact lt_irrefl _)⟩
      · exact hy z hz''

lemma stableSort_stable (key : α → Int) (name : α → String) :
    ∀ l : List α,
      l.Pairwise (fun a b => key a = key b → name a ≤ name b) →
      (stableSort (fun a b => decide (key b ≤ key a)) l).Pairwise
        (fun a b => key b ≤ key a ∧ (key a = key b → name a ≤ name b)) := by
  intro l
  induction l with
  | nil =>
    intro _
    simp [stableSort]
  | cons x xs ih =>
    intro hl
    obtain ⟨hx, hxs⟩ := List.pairwise_cons.mp hl
    show (stableInsert _ x (stableSort _ xs)).Pairwise _
    refine stableInsert_stable key name x _ (ih hxs) ?_
    intro y hy
    exact hx y ((stableSort_perm _ xs).mem_iff.mp hy)

/-- The load-ordering contract of C5 (amended) for a loaded record list:
records are sorted by timestamp descending, records sharing a timestamp
appear in ascending filename order, the returned records are exactly the
kept parses of the matching files, and each record carries as pseudo-field
the name of an actual matching file of the directory whose content parses
to it. -/
def LoadOrderSpec (loaded : List LoadedDoc) (pre : String)
    (dir : List (String × FileContent)) : Prop :=
  loaded.Pairwise
    (fun a b => tsKey b ≤ tsKey a ∧ (tsKey a = tsKey b → a.file ≤ b.file)) ∧
  loaded.Perm ((dir.filter (fun p => globMatch pre p.1)).filterMap
    (fun p => (parsedDoc p.2).map (fun d => LoadedDoc.mk d p.1))) ∧
  ∀ x ∈ loaded, ∃ c, (x.file, c) ∈ dir ∧ parsedDoc c = some x.doc ∧
    globMatch pre x.file = true

lemma load_all_spec (pre : String) (dir : List (String × FileContent)) :
    LoadOrderSpec (load_all pre dir) pre dir := by
  have hfiles : (stableSort (fun a b => decide (a.1 ≤ b.1))
      (dir.filter (fun p => globMatch pre p.1))).Pairwise
      (fun a b : String × FileContent => a.1 ≤ b.1) := by
    have := stableSort_pairwise (fun a b : String × FileContent => decide (a.1 ≤ b.1))
      (by
        intro a b c hab hbc
        simp only [decide_eq_true_eq] at hab hbc ⊢
        exact le_trans hab hbc)
      (by
        intro a b
        simp only [decide_eq_true_eq]
        exact le_total a.1 b.1)
      (dir.filter (fun p => globMatch pre p.1))
    exact this.imp (by simp)
  have hitems : ((stableSort (fun a b => decide (a.1 ≤ b.1))
      (dir.filter (fun p => globMatch pre p.1))).filterMap
      (fun p => (parsedDoc p.2).map (fun d => LoadedDoc.mk d p.1))).Pairwise
      (fun a b : LoadedDoc => a.file ≤ b.file) := by
    rw [List.pairwise_filterMap]
    refine hfiles.imp ?_
    intro a b hab x hx y hy
    obtain ⟨da, hda, hxa⟩ := Option.map_eq_some'.mp hx
    obtain ⟨db, hdb, hyb⟩ := Option.map_eq_some'.mp hy
    rw [← hxa, ← hyb]
    exact hab
  have hperm : (load_all pre dir).Perm
      ((dir.filter (fun p => globMatch pre p.1)).filterMap
        (fun p => (parsedDoc p.2).map (fun d => LoadedDoc.mk d p.1))) :=
    (stableSort_perm _ _).trans ((stableSort_perm _ _).filterMap _)
  refine ⟨?_, hperm, ?_⟩
  · refine stableSort_stable tsKey (fun x => x.file) _ ?_
    exact hitems.imp (fun {a b} h (_ : tsKey a = tsKey b) => h)
  · intro x hx
    have hx' : x ∈ (dir.filter (fun p => globMatch pre p.1)).filterMap
        (fun p => (parsedDoc p.2).map (fun d => LoadedDoc.mk d p.1)) :=
      hperm.mem_iff.mp hx
    obtain ⟨p, hp, hfx⟩ := List.mem_filterMap.mp hx'
    obtain ⟨hpd, hpg⟩ := List.mem_filter.mp hp
    obtain ⟨d, hd, hmk⟩ := Option.map_eq_some'.mp hfx
    refine ⟨p.2, ?_, ?_, ?_⟩
    · rw [← hmk]
      exact hpd
    · rw [← hmk]
      exact hd
    · rw [← hmk]
      exact hpg

/-- C5 counterexample: a corrupt (unparseable) lead file is not skipped —
`load_json` falls back to the default `{}`, which is a dict, so the file
comes back as an empty record carrying only the filename pseudo-field. -/
theorem load_leads_corrupt_cex :
    load_leads [("lead_000.json", FileContent.corrupt)] =
      [LoadedDoc.mk {} "lead_000.json"] ∧
    load_leads [("lead_000.json", FileContent.corrupt)] ≠ [] := by
  have h0 : load_leads [("lead_000.json", FileContent.corrupt)] =
      [LoadedDoc.mk {} "lead_000.json"] := rfl
  refine ⟨h0, ?_⟩
  rw [h0]
  simp

/-- C5 (amended): `load_leads` and `load_agreements` return the kept records
sorted by timestamp descending with ties in ascending filename order (name
listing first, then a stable sort by timestamp); files whose JSON parses to
a non-object are skipped, corrupt files come back as empty records, neither
raises, and every record carries its originating filename.  The hypothesis
restricts stored timestamps to integers or absent — on mixed int/str
timestamp keys Python's `sorted` would raise `TypeError`. -/
theorem load_order_spec (dir : List (String × FileContent))
    (hok : ∀ p ∈ dir, intTsContent p.2 = true) :
    LoadOrderSpec (load_leads dir) "lead_" dir ∧
      LoadOrderSpec (load_agreements dir) "agreement_" dir :=
  ⟨load_all_spec "lead_" dir, load_all_spec "agreement_" dir⟩

/-- C5 witness: the load-ordering contract at a two-file directory whose
records share timestamp 7. -/
theorem load_order_spec_witness :
    LoadOrderSpec
      (load_leads [("lead_b.json", FileContent.obj { timestamp := some (.int 7) }),
        ("lead_a.json", FileContent.obj { timestamp := some (.int 7) })])
      "lead_"
      [("lead_b.json", FileContent.obj { timestamp := some (.int 7) }),
        ("lead_a.json", FileContent.obj { timestamp := some (.int 7) })] ∧
    LoadOrderSpec
      (load_agreements [("lead_b.json", FileContent.obj { timestamp := some (.int 7) }),
        ("lead_a.json", FileContent.obj { timestamp := some (.int 7) })])
      "agreement_"
      [("lead_b.json", FileContent.obj { timestamp := some (.int 7) }),
        ("lead_a.json", FileContent.obj { timestamp := some (.int 7) })] :=
  load_order_spec
    [("lead_b.json", FileContent.obj { timestamp := some (.int 7) }),
      ("lead_a.json", FileContent.obj { timestamp := some (.int 7) })]
    (by decide)
